import Mathlib

/-!
Verification development for the Pitt-Broker ZTF Kafka demo repository.

The repository itself contains a single demo notebook
(notebooks/ztf-auth-test.ipynb).  Its specification describes an
authenticated topic-partition consumer core (CredentialManager,
ConnectionSupervisor, AssignmentTracker, OffsetLedger, PollLoop) that the
notebook only gestures at; that core is not implemented in the repository,
so those components are modelled here from the specification text.  The two
pieces of genuine repository code — the topic-name construction and the
poll-for-data cell — are embedded directly from the notebook.
-/

/-! ## Data model (spec section 3) -/

/-- A topic together with a partition number; identity is immutable and it is
used as a mapping key. -/
structure TopicPartition where
  topic : String
  partition : Nat
deriving DecidableEq

/-- Seeding mode for a fresh offset cursor (EARLIEST, LATEST, LEDGER). -/
inductive SeedMode where
  | earliest
  | latest
  | ledgerMode
deriving DecidableEq

/-- Per-partition read position: one cursor per assigned partition. -/
structure OffsetCursor where
  topic_partition : TopicPartition
  next_offset : Nat
  mode : SeedMode
deriving DecidableEq

/-- A delivered record.  Keys and values are byte lists. -/
structure Message where
  topic_partition : TopicPartition
  offset : Nat
  key : Option (List Nat)
  value : List Nat
  timestamp : Nat
deriving DecidableEq

/-- The set of partitions currently owned by this consumer instance. -/
abbrev PartitionAssignment := List TopicPartition

/-! ## OffsetLedger (spec section 4.4) -/

/-- Broker-side per-partition log information consulted when seeding a
cursor: oldest retained offset, current log end, and the last externally
persisted committed offset, when any. -/
structure LogInfo where
  oldestRetained : TopicPartition → Nat
  logEnd : TopicPartition → Nat
  committed : TopicPartition → Option Nat

/-- Ledger configuration: the seeding mode and the advance lookahead. -/
structure LedgerConfig where
  mode : SeedMode
  lookahead : Nat
deriving DecidableEq

/-- Modelled from the spec: the OffsetLedger state, a finite map from
assigned partitions to their cursors (the OffsetLedger component is not
implemented in the repository). -/
abbrev LedgerState := List (TopicPartition × OffsetCursor)

/-- Look up the cursor of a partition; the first binding wins. -/
def findCursor : LedgerState → TopicPartition → Option OffsetCursor
  | [], _ => none
  | (tp0, c) :: rest, tp => if tp0 = tp then some c else findCursor rest tp

/-- Modelled from the spec: the seed offset for a fresh cursor.  EARLIEST
seeds at the oldest retained offset, LATEST at the current log end, LEDGER
at the last externally persisted committed offset, defaulting to EARLIEST
when none was persisted. -/
def seedOffset (info : LogInfo) (mode : SeedMode) (tp : TopicPartition) : Nat :=
  match mode with
  | .earliest => info.oldestRetained tp
  | .latest => info.logEnd tp
  | .ledgerMode => (info.committed tp).getD (info.oldestRetained tp)

/-- Modelled from the spec: cursorFor returns the existing cursor or creates
one seeded by the configured mode. -/
def cursorFor (cfg : LedgerConfig) (info : LogInfo) (st : LedgerState)
    (tp : TopicPartition) : OffsetCursor × LedgerState :=
  match findCursor st tp with
  | some c => (c, st)
  | none =>
    let c : OffsetCursor := ⟨tp, seedOffset info cfg.mode tp, cfg.mode⟩
    (c, (tp, c) :: st)

/-- Errors raised by the ledger advance operation. -/
inductive AdvanceError where
  | invalidOffset
  | noCursor
deriving DecidableEq

/-- Modelled from the spec: a delivered offset is valid when it is the
current next offset reduced by at most the configured lookahead. -/
def validDelivered (cfg : LedgerConfig) (next delivered : Nat) : Bool :=
  delivered ≤ next && next ≤ delivered + cfg.lookahead

/-- Modelled from the spec: advance sets the next offset to the delivered
offset plus one and fails with InvalidOffsetError when the delivered offset
is not the current next offset reduced by at most the configured lookahead. -/
def advance (cfg : LedgerConfig) (st : LedgerState) (tp : TopicPartition)
    (delivered : Nat) : Except AdvanceError LedgerState :=
  match findCursor st tp with
  | none => .error .noCursor
  | some c =>
    if validDelivered cfg c.next_offset delivered then
      .ok ((tp, ⟨tp, delivered + 1, c.mode⟩) :: st)
    else
      .error .invalidOffset

/-- Modelled from the spec: discard the cursors of revoked partitions. -/
def removeCursors (st : LedgerState) (revoked : PartitionAssignment) : LedgerState :=
  st.filter (fun p => decide (p.1 ∉ revoked))

/-- Modelled from the spec: resetToBeginning replaces the cursor of a
partition with a fresh one positioned at the oldest retained offset. -/
def resetToBeginning (cfg : LedgerConfig) (info : LogInfo) (st : LedgerState)
    (tp : TopicPartition) : LedgerState :=
  (tp, ⟨tp, info.oldestRetained tp, cfg.mode⟩) :: st

/-- Run a sequence of advance calls; a failed advance surfaces its error to
the caller and leaves the ledger unchanged. -/
def advanceSeq (cfg : LedgerConfig) (st : LedgerState) :
    List (TopicPartition × Nat) → LedgerState
  | [] => st
  | (tp, o) :: rest =>
    match advance cfg st tp o with
    | .ok st2 => advanceSeq cfg st2 rest
    | .error _ => advanceSeq cfg st rest

/-! ## PollLoop (spec section 4.5) -/

/-- The outcome of one fetch from the active connection. -/
inductive FetchResult where
  | message (m : Message)
  | failure (e : String)
  | timeout
deriving DecidableEq

/-- Errors surfaced by one poll iteration. -/
inductive PollErr where
  | transport (e : String)
  | ledger (e : AdvanceError)
deriving DecidableEq

/-- The visible outcome of one poll iteration. -/
inductive PollOutcome where
  | discarded (m : Message)
  | yielded (m : Message)
  | failed (e : PollErr)
  | empty
deriving DecidableEq

/-- Modelled from the spec: one PollLoop iteration on a fetched result.  A
message whose partition is no longer within the current assignment is
discarded silently without touching the ledger; an assigned message is
advanced and yielded; transport failures and ledger errors are surfaced. -/
def pollStep (cfg : LedgerConfig) (assign : PartitionAssignment)
    (st : LedgerState) (fr : FetchResult) : PollOutcome × LedgerState :=
  match fr with
  | .timeout => (.empty, st)
  | .failure e => (.failed (.transport e), st)
  | .message m =>
    if m.topic_partition ∈ assign then
      match advance cfg st m.topic_partition m.offset with
      | .ok st2 => (.yielded m, st2)
      | .error e => (.failed (.ledger e), st)
    else
      (.discarded m, st)

/-- Modelled from the spec: drive the poll loop for a bounded number of
iterations over one assigned partition, fetching at the cursor position and
collecting the yielded messages. -/
def runPoll (cfg : LedgerConfig) (info : LogInfo)
    (fetch : TopicPartition → Nat → FetchResult) (assign : PartitionAssignment)
    (tp : TopicPartition) : Nat → LedgerState → List Message × LedgerState
  | 0, st => ([], st)
  | Nat.succ n, st =>
    let pc := cursorFor cfg info st tp
    let pr := pollStep cfg assign pc.2 (fetch tp pc.1.next_offset)
    match pr.1 with
    | .yielded m =>
      let r := runPoll cfg info fetch assign tp n pr.2
      (m :: r.1, r.2)
    | _ => runPoll cfg info fetch assign tp n pr.2

/-! ## AssignmentTracker (spec section 4.3) -/

/-- Events observed by the assignment tracker, in chronological order. -/
inductive TrackerEvent where
  | subscribeTo (topics : List String)
  | rebalance (assign : PartitionAssignment)
deriving DecidableEq

/-- The latest assignment carried by a chronological event list, when any. -/
def latestAssignment : List TrackerEvent → Option PartitionAssignment
  | [] => none
  | e :: rest =>
    match latestAssignment rest with
    | some a => some a
    | none =>
      match e with
      | .rebalance a => some a
      | .subscribeTo _ => none

/-- The first assignment carried by an event list, when any. -/
def firstAssignment : List TrackerEvent → Option PartitionAssignment
  | [] => none
  | e :: rest =>
    match e with
    | .rebalance a => some a
    | .subscribeTo _ => firstAssignment rest

/-- The prefix of an event list up to and including its first rebalance. -/
def waitSpan : List TrackerEvent → List TrackerEvent
  | [] => []
  | e :: rest =>
    match e with
    | .rebalance a => [TrackerEvent.rebalance a]
    | .subscribeTo ts => TrackerEvent.subscribeTo ts :: waitSpan rest

/-- Modelled from the spec: a currentAssignment call made after history
`past` while `future` is still to arrive.  The call returns the latest known
assignment; a caller asking before the first assignment has been received
blocks until one arrives, so the call produces no value when no assignment
ever arrives. -/
def currentAssignmentCall (past future : List TrackerEvent) :
    Option PartitionAssignment :=
  match latestAssignment past with
  | some a => some a
  | none => firstAssignment future

/-- The events consumed while a currentAssignment call is blocked. -/
def waitTrace (past future : List TrackerEvent) : List TrackerEvent :=
  match latestAssignment past with
  | some _ => []
  | none => waitSpan future

/-! ## CredentialManager (spec section 4.1) -/

/-- An authentication credential; replaced wholesale on renewal. -/
structure Credential where
  principal : String
  keytab_path : String
  expires_at : Nat
deriving DecidableEq

/-- Credential manager state: the current credential, the number of external
renewal commands invoked so far, whether a renewal is in flight, and the
number of callers awaiting that renewal. -/
structure CredState where
  cred : Option Credential
  renewals : Nat
  inFlight : Bool
  waiters : Nat
deriving DecidableEq

/-- A credential is valid at a given time when it is present and not within
the configured expiry margin. -/
def credValid (margin : Nat) (st : CredState) (now : Nat) : Bool :=
  match st.cred with
  | some c => now + margin < c.expires_at
  | none => false

/-- Modelled from the spec: a caller needing renewal joins the in-flight
renewal when one exists, otherwise it invokes the external renewal command
exactly once and marks the renewal in flight. -/
def startOrJoin (st : CredState) : CredState :=
  if st.inFlight then ⟨st.cred, st.renewals, true, st.waiters + 1⟩
  else ⟨st.cred, st.renewals + 1, true, st.waiters + 1⟩

/-- Modelled from the spec: one acquire call at a given time.  A valid
credential is returned with no external renewal invocation; otherwise the
caller starts or joins a renewal and waits. -/
def acquireStep (margin : Nat) (st : CredState) (now : Nat) :
    Option Credential × CredState :=
  match st.cred with
  | some c =>
    if now + margin < c.expires_at then (some c, st)
    else (none, startOrJoin st)
  | none => (none, startOrJoin st)

/-- A sequence of acquire calls at the given times. -/
def acquireSeq (margin : Nat) (st : CredState) : List Nat → CredState
  | [] => st
  | t :: ts => acquireSeq margin (acquireStep margin st t).2 ts

/-- Modelled from the spec: completing the in-flight renewal swaps in the
fresh credential atomically and delivers it to every waiter. -/
def finishRenewal (st : CredState) (c : Credential) :
    List Credential × CredState :=
  (List.replicate st.waiters c, ⟨some c, st.renewals, false, 0⟩)

/-- The number of renewal invocations a state may still start before a
finish: one when none is in flight, zero otherwise. -/
def renewalBudget (st : CredState) : Nat :=
  if st.inFlight then 0 else 1

/-! ## ConnectionSupervisor (spec section 4.2) -/

/-- The outcome of one low-level connection attempt. -/
inductive AttemptResult where
  | ok
  | transientFailure
  | fatalFailure
deriving DecidableEq

/-- Backoff configuration: base delay, multiplicative factor, capped maximum
delay, and an optional maximum retry count. -/
structure BackoffConfig where
  base : Nat
  factor : Nat
  cap : Nat
  maxRetries : Option Nat
deriving DecidableEq

/-- The backoff delay before retry number k, capped at the maximum. -/
def backoffDelay (cfg : BackoffConfig) (k : Nat) : Nat :=
  min (cfg.base * cfg.factor ^ k) cfg.cap

/-- Whether retry number k is still within the configured budget. -/
def retriesAllowed (cfg : BackoffConfig) (k : Nat) : Bool :=
  match cfg.maxRetries with
  | none => true
  | some limit => k < limit

/-- The outcome of a connect call, carrying the backoff delays observed. -/
inductive ConnectOutcome where
  | connected (delays : List Nat)
  | fatal (delays : List Nat)
  | exhausted (delays : List Nat)
deriving DecidableEq

/-- Modelled from the spec: the connect retry loop over a list of attempt
outcomes.  Only a transient failure triggers a backoff delay and a retry; a
fatal failure propagates immediately and terminates the supervisor. -/
def connectRun (cfg : BackoffConfig) : List AttemptResult → Nat → ConnectOutcome
  | [], _ => .exhausted []
  | .ok :: _, _ => .connected []
  | .fatalFailure :: _, _ => .fatal []
  | .transientFailure :: rest, k =>
    if retriesAllowed cfg k then
      match connectRun cfg rest (k + 1) with
      | .connected ds => .connected (backoffDelay cfg k :: ds)
      | .fatal ds => .fatal (backoffDelay cfg k :: ds)
      | .exhausted ds => .exhausted (backoffDelay cfg k :: ds)
    else .exhausted []

/-- Modelled from the spec: ConnectionSupervisor.connect over the attempt
outcomes the transport will produce. -/
def connect (cfg : BackoffConfig) (attempts : List AttemptResult) : ConnectOutcome :=
  connectRun cfg attempts 0

/-! ## Notebook embedding: topic name construction -/

/-- The decimal digit value of a character. -/
def dval (c : Char) : Nat := c.toNat - 48

/-- The number denoted by a list of decimal digit characters. -/
def decVal : List Char → Nat
  | [] => 0
  | c :: cs => dval c * 10 ^ cs.length + decVal cs

/-- Pad a string with zeros on the left to a minimum width, the behaviour of
the Python format specifier 02d on a non-negative integer. -/
def zeroPad (width : Nat) (s : String) : String :=
  ⟨List.replicate (width - s.length) '0' ++ s.data⟩

/-- Shallow embedding of the notebook cell building the per-night topic
name: ztf_ followed by the year, the month and day each formatted with the
Python 02d specifier, then _programid1. -/
def topicName (year month day : Nat) : String :=
  "ztf_" ++ Nat.repr year ++ zeroPad 2 (Nat.repr month) ++ zeroPad 2 (Nat.repr day)
    ++ "_programid1"

/-- The topic-name format as the claim words it: month and day are
zero-padded to two digits, the year is not padded. -/
def claimPad (n : Nat) : String :=
  if n < 10 then "0" ++ Nat.repr n else Nat.repr n

/-- The topic name as the claim words it. -/
def claimTopicName (year month day : Nat) : String :=
  "ztf_" ++ Nat.repr year ++ claimPad month ++ claimPad day ++ "_programid1"

/-! ## Notebook embedding: the poll-for-data cell -/

/-- A message as seen by the notebook: an optional error, topic, partition,
offset and key. -/
structure KafkaMessage where
  error : Option String
  topic : String
  partition : Nat
  offset : Nat
  key : Option (List Nat)
deriving DecidableEq

/-- The demo consumer: poll takes a timeout in seconds and the index of the
call and returns a message or nothing. -/
structure DemoConsumer where
  poll : Rat → Nat → Option KafkaMessage

/-- The timeout the notebook passes to every poll call. -/
def pollTimeout : Rat := 1

/-- The visible result of the poll-for-data cell. -/
inductive CellResult where
  | stillPolling
  | raised (e : String)
  | printed (m : KafkaMessage)
deriving DecidableEq

/-- Shallow embedding of the poll-for-data cell: poll with a one second
timeout until a message is returned, then raise KafkaException when the
message carries an error and print it otherwise.  Fuel bounds the number of
polls; running out of fuel means the cell is still inside the while loop. -/
def pollForData (c : DemoConsumer) : Nat → Nat → CellResult
  | 0, _ => .stillPolling
  | Nat.succ fuel, i =>
    match c.poll pollTimeout i with
    | none => pollForData c fuel (i + 1)
    | some m =>
      match m.error with
      | some e => .raised e
      | none => .printed m

/-! ## Concrete demo instances used by scenario claims -/

/-- The partition used by the EARLIEST scenario. -/
def demoTp : TopicPartition := ⟨"t", 0⟩

/-- The message at a given offset in the scenario log. -/
def msgAt (tp : TopicPartition) (o : Nat) : Message := ⟨tp, o, none, [], 0⟩

/-- The scenario log: topic t retains exactly the messages at offsets 10,
11 and 12. -/
def demoFetch (tp : TopicPartition) (o : Nat) : FetchResult :=
  if tp = demoTp ∧ 10 ≤ o ∧ o ≤ 12 then .message (msgAt tp o) else .timeout

/-- The scenario log information: oldest retained 10, log end 13. -/
def demoInfo : LogInfo := ⟨fun _ => 10, fun _ => 13, fun _ => none⟩

/-- The scenario ledger configuration: EARLIEST mode, no lookahead. -/
def demoCfg : LedgerConfig := ⟨SeedMode.earliest, 0⟩

deriving instance DecidableEq for Except

/-! ## Ledger lemmas -/

/-- Looking a partition up right after its own binding was prepended finds
that binding. -/
theorem findCursor_cons_self (tp : TopicPartition) (c : OffsetCursor)
    (st : LedgerState) : findCursor ((tp, c) :: st) tp = some c := by
  simp [findCursor]

/-- Prepending a binding for another partition does not change a lookup. -/
theorem findCursor_cons_ne (tp2 : TopicPartition) (c : OffsetCursor)
    (st : LedgerState) (tp : TopicPartition) (h : tp2 ≠ tp) :
    findCursor ((tp2, c) :: st) tp = findCursor st tp := by
  simp [findCursor, h]

/-- Characterisation of a successful advance. -/
theorem advance_ok_iff (cfg : LedgerConfig) (st st2 : LedgerState)
    (tp : TopicPartition) (delivered : Nat) :
    advance cfg st tp delivered = Except.ok st2 ↔
      ∃ c, findCursor st tp = some c
        ∧ validDelivered cfg c.next_offset delivered = true
        ∧ st2 = (tp, ⟨tp, delivered + 1, c.mode⟩) :: st := by
  unfold advance
  cases h : findCursor st tp with
  | none =>
    dsimp only
    constructor
    · intro h2
      exact Except.noConfusion h2
    · rintro ⟨c3, hc3, _, _⟩
      exact Option.noConfusion hc3
  | some c =>
    dsimp only
    by_cases hv : validDelivered cfg c.next_offset delivered = true
    · rw [if_pos hv]
      constructor
      · intro h2
        injection h2 with h3
        exact ⟨c, rfl, hv, h3.symm⟩
      · rintro ⟨c3, hc3, _, rfl⟩
        injection hc3 with h4
        subst h4
        rfl
    · rw [if_neg hv]
      constructor
      · intro h2
        exact Except.noConfusion h2
      · rintro ⟨c3, hc3, hv3, rfl⟩
        injection hc3 with h4
        subst h4
        exact absurd hv3 hv

/-- A successful advance on one partition leaves the cursor of every other
partition as it was. -/
theorem advance_ok_find_other (cfg : LedgerConfig) (st st2 : LedgerState)
    (tp2 tp : TopicPartition) (delivered : Nat)
    (h : advance cfg st tp2 delivered = Except.ok st2) (hne : tp2 ≠ tp) :
    findCursor st2 tp = findCursor st tp := by
  obtain ⟨c, _, _, rfl⟩ := (advance_ok_iff cfg st st2 tp2 delivered).mp h
  exact findCursor_cons_ne tp2 _ st tp hne

/-- With lookahead at most one, a sequence of advance calls never moves the
cursor of a partition backwards. -/
theorem advanceSeq_mono (cfg : LedgerConfig) (hla : cfg.lookahead ≤ 1) :
    ∀ (ops : List (TopicPartition × Nat)) (st : LedgerState)
      (tp : TopicPartition) (c : OffsetCursor),
      findCursor st tp = some c →
      ∀ c2, findCursor (advanceSeq cfg st ops) tp = some c2 →
        c.next_offset ≤ c2.next_offset := by
  intro ops
  induction ops with
  | nil =>
    intro st tp c hc c2 hc2
    rw [advanceSeq] at hc2
    rw [hc] at hc2
    cases hc2
    exact Nat.le_refl _
  | cons op rest ih =>
    intro st tp c hc c2 hc2
    obtain ⟨tp2, o⟩ := op
    rw [advanceSeq] at hc2
    cases hadv : advance cfg st tp2 o with
    | error e =>
      rw [hadv] at hc2
      dsimp only at hc2
      exact ih st tp c hc c2 hc2
    | ok st2 =>
      rw [hadv] at hc2
      dsimp only at hc2
      by_cases he : tp2 = tp
      · subst he
        obtain ⟨c9, hc9, hv, rfl⟩ := (advance_ok_iff cfg st _ tp2 o).mp hadv
        rw [hc] at hc9
        injection hc9 with hc9e
        subst hc9e
        have hfind : findCursor ((tp2, ⟨tp2, o + 1, c.mode⟩) :: st) tp2
            = some ⟨tp2, o + 1, c.mode⟩ := findCursor_cons_self tp2 _ st
        have hstep := ih _ tp2 _ hfind c2 hc2
        have hv2 : o ≤ c.next_offset ∧ c.next_offset ≤ o + cfg.lookahead := by
          unfold validDelivered at hv
          simp only [Bool.and_eq_true, decide_eq_true_eq] at hv
          exact hv
        have hle : c.next_offset ≤ o + 1 := by omega
        exact Nat.le_trans hle hstep
      · have hother := advance_ok_find_other cfg st st2 tp2 tp o hadv he
        have hfind2 : findCursor st2 tp = some c := by
          rw [hother]
          exact hc
        exact ih st2 tp c hfind2 c2 hc2

/-! ## Claim C1 -/

/-- C1 counterexample: the claim that next_offset is non-decreasing and that
every successful advance with a valid offset increases it by exactly 1 fails
on the modelled advance contract.  With lookahead 2 and a cursor at
next_offset 5, advance with delivered offset 3 is valid and succeeds, yet it
sets next_offset to 4, which is a strict decrease and not an increase by 1. -/
theorem advance_exact_increment_counterexample :
    advance ⟨SeedMode.earliest, 2⟩ [(demoTp, ⟨demoTp, 5, SeedMode.earliest⟩)] demoTp 3
        = Except.ok [(demoTp, ⟨demoTp, 4, SeedMode.earliest⟩),
            (demoTp, ⟨demoTp, 5, SeedMode.earliest⟩)]
    ∧ findCursor [(demoTp, ⟨demoTp, 4, SeedMode.earliest⟩),
          (demoTp, ⟨demoTp, 5, SeedMode.earliest⟩)] demoTp
        = some ⟨demoTp, 4, SeedMode.earliest⟩
    ∧ ¬ (4 : Nat) = 5 + 1
    ∧ (4 : Nat) < 5 := by
  refine ⟨by decide, by decide, by decide, by decide⟩

/-- C1 amended: a successful advance sets next_offset to the delivered
offset plus 1; it increases next_offset by exactly 1 exactly when the
delivered offset equals the current next_offset of the cursor, which the
lookahead check forces whenever the configured lookahead is 0; and when the
configured lookahead is at most 1, next_offset is monotonically
non-decreasing across the advance and any later sequence of advances. -/
theorem advance_monotone_of_lookahead_le_one
    (cfg : LedgerConfig) (st st2 : LedgerState) (tp : TopicPartition)
    (delivered : Nat) (c c2 : OffsetCursor) (ops : List (TopicPartition × Nat))
    (hla : cfg.lookahead ≤ 1)
    (hc : findCursor st tp = some c)
    (hadv : advance cfg st tp delivered = Except.ok st2)
    (hc2 : findCursor (advanceSeq cfg st2 ops) tp = some c2) :
    findCursor st2 tp = some ⟨tp, delivered + 1, c.mode⟩
    ∧ c.next_offset ≤ delivered + 1
    ∧ (cfg.lookahead = 0 → delivered = c.next_offset)
    ∧ delivered + 1 ≤ c2.next_offset := by
  obtain ⟨c9, hc9, hv, rfl⟩ := (advance_ok_iff cfg st _ tp delivered).mp hadv
  rw [hc] at hc9
  injection hc9 with hc9e
  subst hc9e
  have hv2 : delivered ≤ c.next_offset ∧ c.next_offset ≤ delivered + cfg.lookahead := by
    unfold validDelivered at hv
    simp only [Bool.and_eq_true, decide_eq_true_eq] at hv
    exact hv
  have hfind : findCursor ((tp, ⟨tp, delivered + 1, c.mode⟩) :: st) tp
      = some ⟨tp, delivered + 1, c.mode⟩ := findCursor_cons_self tp _ st
  refine ⟨hfind, by omega, by omega, ?_⟩
  exact advanceSeq_mono cfg hla ops _ tp _ hfind c2 hc2

/-- C1 amended witness at a concrete input: lookahead 1, cursor at 5,
advance with delivered offset 5, then one further advance with 6. -/
theorem advance_monotone_of_lookahead_le_one_witness :
    findCursor [(demoTp, ⟨demoTp, 6, SeedMode.earliest⟩),
          (demoTp, ⟨demoTp, 5, SeedMode.earliest⟩)] demoTp
        = some ⟨demoTp, 5 + 1, (⟨demoTp, 5, SeedMode.earliest⟩ : OffsetCursor).mode⟩
    ∧ (⟨demoTp, 5, SeedMode.earliest⟩ : OffsetCursor).next_offset ≤ 5 + 1
    ∧ ((⟨SeedMode.earliest, 1⟩ : LedgerConfig).lookahead = 0 →
        5 = (⟨demoTp, 5, SeedMode.earliest⟩ : OffsetCursor).next_offset)
    ∧ 5 + 1 ≤ (⟨demoTp, 7, SeedMode.earliest⟩ : OffsetCursor).next_offset :=
  advance_monotone_of_lookahead_le_one ⟨SeedMode.earliest, 1⟩
    [(demoTp, ⟨demoTp, 5, SeedMode.earliest⟩)]
    [(demoTp, ⟨demoTp, 6, SeedMode.earliest⟩), (demoTp, ⟨demoTp, 5, SeedMode.earliest⟩)]
    demoTp 5 ⟨demoTp, 5, SeedMode.earliest⟩ ⟨demoTp, 7, SeedMode.earliest⟩
    [(demoTp, 6)] (by decide) (by decide) (by decide) (by decide)

/-! ## Claim C4 -/

/-- C4: for an assigned partition, resetToBeginning followed by cursorFor
returns a cursor whose next_offset is the oldest retained offset of that
partition. -/
theorem resetToBeginning_cursorFor_roundtrip
    (cfg : LedgerConfig) (info : LogInfo) (st : LedgerState)
    (assign : PartitionAssignment) (tp : TopicPartition)
    (h : tp ∈ assign) :
    (cursorFor cfg info (resetToBeginning cfg info st tp) tp).1.next_offset
      = info.oldestRetained tp := by
  unfold cursorFor resetToBeginning
  rw [findCursor_cons_self]

/-- C4 witness at a concrete input: the demo partition, assigned, with the
scenario log whose oldest retained offset is 10. -/
theorem resetToBeginning_cursorFor_roundtrip_witness :
    (cursorFor demoCfg demoInfo (resetToBeginning demoCfg demoInfo [] demoTp) demoTp).1.next_offset
      = demoInfo.oldestRetained demoTp :=
  resetToBeginning_cursorFor_roundtrip demoCfg demoInfo [] [demoTp] demoTp (by decide)

/-! ## Claim C6 -/

/-- C6: advance fails with InvalidOffsetError exactly when the delivered
offset is not the current next_offset reduced by at most the configured
lookahead; the error value is returned to the caller and no retry occurs. -/
theorem advance_invalid_offset_iff
    (cfg : LedgerConfig) (st : LedgerState) (tp : TopicPartition)
    (delivered : Nat) (c : OffsetCursor)
    (hc : findCursor st tp = some c) :
    advance cfg st tp delivered = Except.error AdvanceError.invalidOffset
      ↔ ¬ (delivered ≤ c.next_offset
            ∧ c.next_offset ≤ delivered + cfg.lookahead) := by
  unfold advance
  rw [hc]
  dsimp only
  by_cases hv : validDelivered cfg c.next_offset delivered = true
  · rw [if_pos hv]
    unfold validDelivered at hv
    simp only [Bool.and_eq_true, decide_eq_true_eq] at hv
    constructor
    · intro h2
      exact Except.noConfusion h2
    · intro h2
      exact absurd hv h2
  · rw [if_neg hv]
    unfold validDelivered at hv
    simp only [Bool.and_eq_true, decide_eq_true_eq] at hv
    constructor
    · intro _
      exact hv
    · intro _
      rfl

/-- C6 witness at a concrete input: cursor at next_offset 5 with lookahead
0, delivered offset 7 is invalid. -/
theorem advance_invalid_offset_iff_witness :
    advance ⟨SeedMode.earliest, 0⟩ [(demoTp, ⟨demoTp, 5, SeedMode.earliest⟩)] demoTp 7
        = Except.error AdvanceError.invalidOffset
      ↔ ¬ ((7 : Nat) ≤ (⟨demoTp, 5, SeedMode.earliest⟩ : OffsetCursor).next_offset
            ∧ (⟨demoTp, 5, SeedMode.earliest⟩ : OffsetCursor).next_offset
                ≤ 7 + (⟨SeedMode.earliest, 0⟩ : LedgerConfig).lookahead) :=
  advance_invalid_offset_iff ⟨SeedMode.earliest, 0⟩
    [(demoTp, ⟨demoTp, 5, SeedMode.earliest⟩)] demoTp 7
    ⟨demoTp, 5, SeedMode.earliest⟩ (by decide)

/-! ## Claim C2 -/

/-- After the rebalance flush removes a revoked partition, its cursor no
longer exists. -/
theorem findCursor_removeCursors (st : LedgerState)
    (revoked : PartitionAssignment) (tp : TopicPartition) (h : tp ∈ revoked) :
    findCursor (removeCursors st revoked) tp = none := by
  induction st with
  | nil => rfl
  | cons p rest ih =>
    obtain ⟨tp1, c1⟩ := p
    unfold removeCursors at *
    simp only [List.filter_cons]
    by_cases hmem : tp1 ∈ revoked
    · have hdec : decide ((tp1, c1).1 ∉ revoked) = false := by
        simp [hmem]
      rw [hdec]
      simp only [Bool.false_eq_true, if_false]
      exact ih
    · have hdec : decide ((tp1, c1).1 ∉ revoked) = true := by
        simp [hmem]
      rw [hdec]
      simp only [if_true]
      have hne : tp1 ≠ tp := fun he => hmem (he ▸ h)
      rw [findCursor_cons_ne tp1 c1 _ tp hne]
      exact ih

/-- C2: a fetched message whose partition was revoked mid-flight is
discarded silently with the ledger untouched, and this is the only silent
case: a transport failure is surfaced, a timeout yields no item, a message
from an assigned partition is advanced and yielded or its ledger error is
surfaced, every discarded outcome comes from a revoked-partition message,
and after the rebalance flush the cursor of the revoked partition no longer
exists. -/
theorem pollStep_discard_revoked_only
    (cfg : LedgerConfig) (assign : PartitionAssignment) (st st3 : LedgerState)
    (m m2 m3 : Message) (e : String) (fr : FetchResult)
    (hrev : m.topic_partition ∉ assign)
    (hass : m2.topic_partition ∈ assign)
    (hdisc : pollStep cfg assign st fr = (PollOutcome.discarded m3, st3)) :
    pollStep cfg assign st (FetchResult.message m) = (PollOutcome.discarded m, st)
    ∧ pollStep cfg assign st (FetchResult.failure e)
        = (PollOutcome.failed (PollErr.transport e), st)
    ∧ pollStep cfg assign st FetchResult.timeout = (PollOutcome.empty, st)
    ∧ pollStep cfg assign st (FetchResult.message m2)
        = (match advance cfg st m2.topic_partition m2.offset with
           | Except.ok stN => (PollOutcome.yielded m2, stN)
           | Except.error err => (PollOutcome.failed (PollErr.ledger err), st))
    ∧ fr = FetchResult.message m3 ∧ m3.topic_partition ∉ assign ∧ st3 = st
    ∧ findCursor (removeCursors st [m.topic_partition]) m.topic_partition = none := by
  refine ⟨?_, rfl, rfl, ?_, ?_⟩
  · unfold pollStep
    dsimp only
    rw [if_neg hrev]
  · unfold pollStep
    dsimp only
    rw [if_pos hass]
  · unfold pollStep at hdisc
    cases fr with
    | timeout =>
      simp only [Prod.mk.injEq] at hdisc
      exact absurd hdisc.1 (by intro h2; exact PollOutcome.noConfusion h2)
    | failure e2 =>
      simp only [Prod.mk.injEq] at hdisc
      exact absurd hdisc.1 (by intro h2; exact PollOutcome.noConfusion h2)
    | message mm =>
      dsimp only at hdisc
      by_cases hin : mm.topic_partition ∈ assign
      · rw [if_pos hin] at hdisc
        cases hadv : advance cfg st mm.topic_partition mm.offset with
        | ok stN =>
          rw [hadv] at hdisc
          dsimp only at hdisc
          simp only [Prod.mk.injEq] at hdisc
          exact absurd hdisc.1 (by intro h2; exact PollOutcome.noConfusion h2)
        | error err =>
          rw [hadv] at hdisc
          dsimp only at hdisc
          simp only [Prod.mk.injEq] at hdisc
          exact absurd hdisc.1 (by intro h2; exact PollOutcome.noConfusion h2)
      · rw [if_neg hin] at hdisc
        simp only [Prod.mk.injEq] at hdisc
        obtain ⟨h1, h2⟩ := hdisc
        injection h1 with hm
        subst hm
        subst h2
        exact ⟨rfl, hin, rfl, findCursor_removeCursors st _ _ (by simp)⟩

/-- C2 witness at a concrete input: one revoked message, one assigned
message, and a discarded outcome, on the demo partition. -/
theorem pollStep_discard_revoked_only_witness :
    pollStep demoCfg [⟨"u", 1⟩] [] (FetchResult.message (msgAt demoTp 10))
        = (PollOutcome.discarded (msgAt demoTp 10), [])
    ∧ pollStep demoCfg [⟨"u", 1⟩] [] (FetchResult.failure "boom")
        = (PollOutcome.failed (PollErr.transport "boom"), [])
    ∧ pollStep demoCfg [⟨"u", 1⟩] [] FetchResult.timeout = (PollOutcome.empty, [])
    ∧ pollStep demoCfg [⟨"u", 1⟩] [] (FetchResult.message (msgAt ⟨"u", 1⟩ 4))
        = (match advance demoCfg [] (msgAt ⟨"u", 1⟩ 4).topic_partition (msgAt ⟨"u", 1⟩ 4).offset with
           | Except.ok stN => (PollOutcome.yielded (msgAt ⟨"u", 1⟩ 4), stN)
           | Except.error err => (PollOutcome.failed (PollErr.ledger err), []))
    ∧ FetchResult.message (msgAt demoTp 10) = FetchResult.message (msgAt demoTp 10)
    ∧ (msgAt demoTp 10).topic_partition ∉ ([⟨"u", 1⟩] : PartitionAssignment)
    ∧ ([] : LedgerState) = []
    ∧ findCursor (removeCursors [] [(msgAt demoTp 10).topic_partition])
        (msgAt demoTp 10).topic_partition = none :=
  pollStep_discard_revoked_only demoCfg [⟨"u", 1⟩] [] [] (msgAt demoTp 10)
    (msgAt ⟨"u", 1⟩ 4) (msgAt demoTp 10) "boom"
    (FetchResult.message (msgAt demoTp 10)) (by decide) (by decide) (by decide)

/-! ## Claim C5 -/

/-- C5: in EARLIEST mode over topic t retaining messages at offsets 10, 11
and 12, the cursor seeds at the oldest retained offset 10, the first three
yielded messages carry offsets 10, 11, 12 in that order, and after the three
are advanced the next_offset of the cursor is 13. -/
theorem earliest_scenario_poll :
    (cursorFor demoCfg demoInfo [] demoTp).1.next_offset = 10
    ∧ (runPoll demoCfg demoInfo demoFetch [demoTp] demoTp 3 []).1
        = [msgAt demoTp 10, msgAt demoTp 11, msgAt demoTp 12]
    ∧ (runPoll demoCfg demoInfo demoFetch [demoTp] demoTp 3 []).1.map Message.offset
        = [10, 11, 12]
    ∧ findCursor (runPoll demoCfg demoInfo demoFetch [demoTp] demoTp 3 []).2 demoTp
        = some ⟨demoTp, 13, SeedMode.earliest⟩ := by
  refine ⟨by decide, by decide, by decide, by decide⟩

/-! ## Claim C3 -/

/-- The latest assignment of a concatenation is the latest of the second
part, falling back to the latest of the first. -/
theorem latestAssignment_append (xs ys : List TrackerEvent) :
    latestAssignment (xs ++ ys)
      = match latestAssignment ys with
        | some a => some a
        | none => latestAssignment xs := by
  induction xs with
  | nil =>
    simp only [List.nil_append]
    cases latestAssignment ys with
    | none => rfl
    | some a => rfl
  | cons e rest ih =>
    cases hys : latestAssignment ys with
    | none =>
      simp only [List.cons_append, latestAssignment, List.append_eq, ih, hys]
    | some a =>
      simp only [List.cons_append, latestAssignment, List.append_eq, ih, hys]

/-- An event list has a first assignment exactly when it has a latest one. -/
theorem firstAssignment_none_iff (es : List TrackerEvent) :
    firstAssignment es = none ↔ latestAssignment es = none := by
  induction es with
  | nil => simp [firstAssignment, latestAssignment]
  | cons e rest ih =>
    cases e with
    | subscribeTo ts =>
      rw [firstAssignment, latestAssignment]
      cases hr : latestAssignment rest with
      | some a =>
        dsimp only
        rw [ih, hr]
      | none =>
        dsimp only
        rw [ih, hr]
    | rebalance a =>
      rw [firstAssignment, latestAssignment]
      cases hr : latestAssignment rest with
      | some b =>
        dsimp only
        constructor
        · intro h2
          exact Option.noConfusion h2
        · intro h2
          exact Option.noConfusion h2
      | none =>
        dsimp only
        constructor
        · intro h2
          exact Option.noConfusion h2
        · intro h2
          exact Option.noConfusion h2

/-- The latest assignment over the wait span of a list is its first
assignment. -/
theorem latestAssignment_waitSpan (es : List TrackerEvent) :
    latestAssignment (waitSpan es) = firstAssignment es := by
  induction es with
  | nil => rfl
  | cons e rest ih =>
    cases e with
    | subscribeTo ts =>
      rw [waitSpan, firstAssignment]
      rw [latestAssignment, ih]
      cases firstAssignment rest with
      | none => rfl
      | some a => rfl
    | rebalance a => rfl

/-- The wait span of an event list is a prefix of it. -/
theorem waitSpan_prefix (es : List TrackerEvent) : waitSpan es <+: es := by
  induction es with
  | nil => exact ⟨[], rfl⟩
  | cons e rest ih =>
    cases e with
    | subscribeTo ts =>
      obtain ⟨t, ht⟩ := ih
      refine ⟨t, ?_⟩
      rw [waitSpan]
      rw [List.cons_append, ht]
    | rebalance a => exact ⟨rest, rfl⟩

/-- C3: a currentAssignment call returns exactly the latest known assignment
at the moment it unblocks, where the events consumed while blocked are a
prefix of the arriving future; and it returns no value precisely when no
assignment event ever occurs, so a caller asking before the first assignment
blocks until one arrives. -/
theorem currentAssignment_returns_latest (past future : List TrackerEvent) :
    currentAssignmentCall past future
      = latestAssignment (past ++ waitTrace past future)
    ∧ ((currentAssignmentCall past future).isNone
        = (latestAssignment (past ++ future)).isNone)
    ∧ waitTrace past future <+: future := by
  unfold currentAssignmentCall waitTrace
  cases hp : latestAssignment past with
  | some b =>
    refine ⟨?_, ?_, ⟨future, rfl⟩⟩
    · rw [List.append_nil, hp]
    · rw [latestAssignment_append]
      cases hf : latestAssignment future with
      | some c => rfl
      | none => rw [hp]
  | none =>
    refine ⟨?_, ?_, waitSpan_prefix future⟩
    · rw [latestAssignment_append, latestAssignment_waitSpan]
      cases hf : firstAssignment future with
      | some c => rfl
      | none => rw [hp]
    · rw [latestAssignment_append]
      cases hf : latestAssignment future with
      | some c =>
        cases hff : firstAssignment future with
        | some d => rfl
        | none =>
          have h2 := (firstAssignment_none_iff future).mp hff
          rw [hf] at h2
          exact Option.noConfusion h2
      | none =>
        rw [(firstAssignment_none_iff future).mpr hf, hp]

/-! ## Claim C7 -/

/-- One acquire call at a time where the credential is valid returns it and
leaves the state untouched. -/
theorem acquireStep_valid (margin : Nat) (st : CredState) (now : Nat)
    (h : credValid margin st now = true) :
    acquireStep margin st now = (st.cred, st) := by
  unfold credValid at h
  unfold acquireStep
  cases hc : st.cred with
  | none =>
    rw [hc] at h
    exact Bool.noConfusion h
  | some c =>
    rw [hc] at h
    simp only [decide_eq_true_eq] at h
    dsimp only
    rw [if_pos h]

/-- A sequence of acquire calls all made while the credential is valid
leaves the state untouched. -/
theorem acquireSeq_valid (margin : Nat) (st : CredState) (ts : List Nat)
    (h : ts.all (credValid margin st) = true) :
    acquireSeq margin st ts = st := by
  induction ts with
  | nil => rfl
  | cons t rest ih =>
    simp only [List.all_cons, Bool.and_eq_true] at h
    rw [acquireSeq, acquireStep_valid margin st t h.1]
    exact ih h.2

/-- One acquire call preserves the sum of the renewal count and the
remaining renewal budget: a renewal command is invoked only by consuming the
single budget unit, which a finish alone restores. -/
theorem acquireStep_budget (margin : Nat) (st : CredState) (now : Nat) :
    (acquireStep margin st now).2.renewals + renewalBudget (acquireStep margin st now).2
      = st.renewals + renewalBudget st := by
  unfold acquireStep startOrJoin renewalBudget
  cases hc : st.cred with
  | none =>
    dsimp only
    by_cases hf : st.inFlight = true <;> simp [hf]
  | some c =>
    dsimp only
    by_cases hv : now + margin < c.expires_at
    · rw [if_pos hv]
    · rw [if_neg hv]
      by_cases hf : st.inFlight = true <;> simp [hf]

/-- Any sequence of acquire calls preserves the renewal count plus budget. -/
theorem acquireSeq_budget (margin : Nat) (ts : List Nat) :
    ∀ st : CredState,
      (acquireSeq margin st ts).renewals + renewalBudget (acquireSeq margin st ts)
        = st.renewals + renewalBudget st := by
  induction ts with
  | nil =>
    intro st
    rfl
  | cons t rest ih =>
    intro st
    rw [acquireSeq]
    rw [ih (acquireStep margin st t).2]
    exact acquireStep_budget margin st t

/-- C7: acquire is idempotent while a valid credential exists — it performs
no external renewal invocation and leaves the manager state untouched; any
sequence of acquire calls invokes at most one renewal command beyond those
already counted while none is in flight, and none when one is in flight;
and finishing the in-flight renewal delivers the fresh credential to every
waiter and installs it atomically. -/
theorem acquire_idempotent_single_renewal
    (margin : Nat) (st : CredState) (ts ts2 : List Nat) (c : Credential)
    (hvalid : ts.all (credValid margin st) = true) :
    acquireSeq margin st ts = st
    ∧ (acquireSeq margin st ts).renewals = st.renewals
    ∧ (acquireSeq margin st ts2).renewals ≤ st.renewals + renewalBudget st
    ∧ renewalBudget st ≤ 1
    ∧ (finishRenewal st c).1.length = st.waiters
    ∧ (finishRenewal st c).1.all (fun x => decide (x = c)) = true
    ∧ (finishRenewal st c).2.cred = some c
    ∧ (finishRenewal st c).2.inFlight = false := by
  have hseq := acquireSeq_valid margin st ts hvalid
  have hbud := acquireSeq_budget margin ts2 st
  refine ⟨hseq, by rw [hseq], by omega, ?_, ?_, ?_, rfl, rfl⟩
  · unfold renewalBudget
    by_cases hf : st.inFlight = true
    · rw [if_pos hf]
      omega
    · rw [if_neg hf]
  · exact List.length_replicate st.waiters c
  · unfold finishRenewal
    dsimp only
    induction st.waiters with
    | zero => rfl
    | succ n ih =>
      rw [List.replicate_succ, List.all_cons, ih]
      simp

/-- C7 witness at a concrete input: a credential valid until time 100,
three acquire calls well before expiry, a later arbitrary call sequence,
and a concrete fresh credential. -/
theorem acquire_idempotent_single_renewal_witness :
    acquireSeq 5 ⟨some ⟨"p", "k", 100⟩, 0, false, 0⟩ [1, 2, 3]
        = ⟨some ⟨"p", "k", 100⟩, 0, false, 0⟩
    ∧ (acquireSeq 5 ⟨some ⟨"p", "k", 100⟩, 0, false, 0⟩ [1, 2, 3]).renewals
        = (⟨some ⟨"p", "k", 100⟩, 0, false, 0⟩ : CredState).renewals
    ∧ (acquireSeq 5 ⟨some ⟨"p", "k", 100⟩, 0, false, 0⟩ [200, 201, 202]).renewals
        ≤ (⟨some ⟨"p", "k", 100⟩, 0, false, 0⟩ : CredState).renewals
            + renewalBudget ⟨some ⟨"p", "k", 100⟩, 0, false, 0⟩
    ∧ renewalBudget ⟨some ⟨"p", "k", 100⟩, 0, false, 0⟩ ≤ 1
    ∧ (finishRenewal ⟨some ⟨"p", "k", 100⟩, 0, false, 0⟩ ⟨"p", "k", 300⟩).1.length
        = (⟨some ⟨"p", "k", 100⟩, 0, false, 0⟩ : CredState).waiters
    ∧ (finishRenewal ⟨some ⟨"p", "k", 100⟩, 0, false, 0⟩ ⟨"p", "k", 300⟩).1.all
        (fun x => decide (x = ⟨"p", "k", 300⟩)) = true
    ∧ (finishRenewal ⟨some ⟨"p", "k", 100⟩, 0, false, 0⟩ ⟨"p", "k", 300⟩).2.cred
        = some ⟨"p", "k", 300⟩
    ∧ (finishRenewal ⟨some ⟨"p", "k", 100⟩, 0, false, 0⟩ ⟨"p", "k", 300⟩).2.inFlight
        = false :=
  acquire_idempotent_single_renewal 5 ⟨some ⟨"p", "k", 100⟩, 0, false, 0⟩
    [1, 2, 3] [200, 201, 202] ⟨"p", "k", 300⟩ (by decide)

/-! ## Claim C8 -/

/-- Running the connect loop over a prefix of transient failures within the
retry budget accumulates exactly the exponential backoff delays, and the
attempt that follows the prefix decides the outcome: a fatal failure
propagates at once with the attempts after it never consumed, a success
connects. -/
theorem connectRun_transient_prefix (cfg : BackoffConfig) :
    ∀ (pre : List AttemptResult) (k : Nat) (rest : List AttemptResult),
      pre.all (fun a => decide (a = AttemptResult.transientFailure)) = true →
      (List.range pre.length).all (fun i => retriesAllowed cfg (k + i)) = true →
      connectRun cfg (pre ++ AttemptResult.fatalFailure :: rest) k
        = ConnectOutcome.fatal
            ((List.range pre.length).map (fun i => backoffDelay cfg (k + i)))
      ∧ connectRun cfg (pre ++ AttemptResult.ok :: rest) k
        = ConnectOutcome.connected
            ((List.range pre.length).map (fun i => backoffDelay cfg (k + i))) := by
  intro pre
  induction pre with
  | nil =>
    intro k rest _ _
    exact ⟨rfl, rfl⟩
  | cons a pre ih =>
    intro k rest hall hallow
    simp only [List.all_cons, Bool.and_eq_true, decide_eq_true_eq] at hall
    obtain ⟨ha, hall⟩ := hall
    subst ha
    have h0 : retriesAllowed cfg k = true := by
      have := hallow
      simp only [List.length_cons, List.range_succ_eq_map, List.all_cons,
        Bool.and_eq_true] at this
      have h2 := this.1
      rw [Nat.add_zero] at h2
      exact h2
    have hshift : (List.range pre.length).all
        (fun i => retriesAllowed cfg (k + 1 + i)) = true := by
      simp only [List.length_cons, List.range_succ_eq_map, List.all_cons,
        Bool.and_eq_true, List.all_map] at hallow
      have h2 := hallow.2
      simp only [List.all_eq_true] at h2 ⊢
      intro i hi
      have h3 := h2 i hi
      simp only [Function.comp] at h3
      have he : k + Nat.succ i = k + 1 + i := by omega
      rw [← he]
      exact h3
    obtain ⟨ihf, iho⟩ := ih (k + 1) rest hall hshift
    have hmap : (List.range (pre.length + 1)).map (fun i => backoffDelay cfg (k + i))
        = backoffDelay cfg k
            :: (List.range pre.length).map (fun i => backoffDelay cfg (k + 1 + i)) := by
      rw [List.range_succ_eq_map, List.map_cons, List.map_map, Nat.add_zero]
      congr 1
      apply List.map_congr_left
      intro i _
      simp only [Function.comp]
      congr 1
      omega
    constructor
    · rw [List.cons_append, connectRun, if_pos h0, ihf]
      rw [List.length_cons, hmap]
    · rw [List.cons_append, connectRun, if_pos h0, iho]
      rw [List.length_cons, hmap]

/-- C8: connect retries with exponential backoff only on transient failures
and a fatal failure propagates immediately, terminating the supervisor with
the later attempts never consumed; in the scenario of two transient
failures followed by a success, the observed delays are the base delay and
the base times the factor, both below the cap, and no fatal outcome
occurs. -/
theorem connect_backoff_fatal_scenario
    (cfg : BackoffConfig) (pre rest : List AttemptResult)
    (hpre : pre.all (fun a => decide (a = AttemptResult.transientFailure)) = true)
    (hallow : (List.range pre.length).all (fun i => retriesAllowed cfg i) = true)
    (hb : cfg.base < cfg.cap) (hbf : cfg.base * cfg.factor < cfg.cap)
    (h0 : retriesAllowed cfg 0 = true) (h1 : retriesAllowed cfg 1 = true) :
    connect cfg (pre ++ AttemptResult.fatalFailure :: rest)
      = ConnectOutcome.fatal ((List.range pre.length).map (backoffDelay cfg))
    ∧ connect cfg (pre ++ AttemptResult.ok :: rest)
      = ConnectOutcome.connected ((List.range pre.length).map (backoffDelay cfg))
    ∧ connect cfg [AttemptResult.transientFailure, AttemptResult.transientFailure,
        AttemptResult.ok]
      = ConnectOutcome.connected [cfg.base, cfg.base * cfg.factor] := by
  have hallow0 : (List.range pre.length).all (fun i => retriesAllowed cfg (0 + i)) = true := by
    simp only [Nat.zero_add]
    exact hallow
  obtain ⟨hf, ho⟩ := connectRun_transient_prefix cfg pre 0 rest hpre hallow0
  have hmap : (List.range pre.length).map (fun i => backoffDelay cfg (0 + i))
      = (List.range pre.length).map (backoffDelay cfg) := by
    apply List.map_congr_left
    intro i _
    rw [Nat.zero_add]
  have d0 : backoffDelay cfg 0 = cfg.base := by
    unfold backoffDelay
    rw [pow_zero, Nat.mul_one]
    exact Nat.min_eq_left (Nat.le_of_lt hb)
  have d1 : backoffDelay cfg 1 = cfg.base * cfg.factor := by
    unfold backoffDelay
    rw [pow_one]
    exact Nat.min_eq_left (Nat.le_of_lt hbf)
  refine ⟨by rw [connect, hf, hmap], by rw [connect, ho, hmap], ?_⟩
  have hrun : connectRun cfg [AttemptResult.transientFailure,
      AttemptResult.transientFailure, AttemptResult.ok] 0
      = ConnectOutcome.connected [backoffDelay cfg 0, backoffDelay cfg 1] := by
    rw [connectRun, if_pos h0, connectRun, if_pos h1, connectRun]
  rw [connect, hrun, d0, d1]

/-- C8 witness at a concrete input: base 100, factor 2, cap 1000, at most 5
retries, two transient failures before the deciding attempt. -/
theorem connect_backoff_fatal_scenario_witness :
    connect ⟨100, 2, 1000, some 5⟩
        [AttemptResult.transientFailure, AttemptResult.transientFailure,
          AttemptResult.fatalFailure, AttemptResult.ok]
      = ConnectOutcome.fatal ((List.range 2).map (backoffDelay ⟨100, 2, 1000, some 5⟩))
    ∧ connect ⟨100, 2, 1000, some 5⟩
        [AttemptResult.transientFailure, AttemptResult.transientFailure,
          AttemptResult.ok, AttemptResult.ok]
      = ConnectOutcome.connected ((List.range 2).map (backoffDelay ⟨100, 2, 1000, some 5⟩))
    ∧ connect ⟨100, 2, 1000, some 5⟩
        [AttemptResult.transientFailure, AttemptResult.transientFailure,
          AttemptResult.ok]
      = ConnectOutcome.connected [(⟨100, 2, 1000, some 5⟩ : BackoffConfig).base,
          (⟨100, 2, 1000, some 5⟩ : BackoffConfig).base
            * (⟨100, 2, 1000, some 5⟩ : BackoffConfig).factor] :=
  connect_backoff_fatal_scenario ⟨100, 2, 1000, some 5⟩
    [AttemptResult.transientFailure, AttemptResult.transientFailure]
    [AttemptResult.ok] (by decide) (by decide) (by decide) (by decide)
    (by decide) (by decide)

/-! ## Claim C9 -/

theorem dval_digitChar : ∀ k, k < 10 → dval (Nat.digitChar k) = k := by decide

theorem dval_digitChar_lt : ∀ k, k < 10 → dval (Nat.digitChar k) < 10 := by decide

theorem decVal_toDigitsCore :
    ∀ (fuel n : Nat) (ds : List Char), n < fuel →
      decVal (Nat.toDigitsCore 10 fuel n ds) = n * 10 ^ ds.length + decVal ds := by
  intro fuel
  induction fuel with
  | zero =>
    intro n ds h
    exact absurd h (Nat.not_lt_zero n)
  | succ f ih =>
    intro n ds h
    rw [Nat.toDigitsCore]
    by_cases hz : n / 10 = 0
    · rw [if_pos hz]
      have hn : n < 10 := (Nat.div_eq_zero_iff (by omega)).mp hz
      rw [decVal, dval_digitChar (n % 10) (Nat.mod_lt n (by omega))]
      rw [Nat.mod_eq_of_lt hn]
    · rw [if_neg hz]
      have hlt : n / 10 < f := by
        have h1 : n / 10 < n := Nat.div_lt_self (by omega) (by omega)
        omega
      rw [ih (n / 10) (Nat.digitChar (n % 10) :: ds) hlt]
      rw [decVal, List.length_cons]
      rw [dval_digitChar (n % 10) (Nat.mod_lt n (by omega))]
      have h2 : 10 * (n / 10) + n % 10 = n := Nat.div_add_mod n 10
      calc n / 10 * 10 ^ (ds.length + 1) + (n % 10 * 10 ^ ds.length + decVal ds)
          = (10 * (n / 10) + n % 10) * 10 ^ ds.length + decVal ds := by ring
        _ = n * 10 ^ ds.length + decVal ds := by rw [h2]

theorem decVal_repr (n : Nat) : decVal (Nat.repr n).data = n := by
  have h : (Nat.repr n).data = Nat.toDigitsCore 10 (n + 1) n [] := rfl
  rw [h, decVal_toDigitsCore (n + 1) n [] (Nat.lt_succ_self n)]
  simp [decVal]

theorem repr_injective (a b : Nat) (h : Nat.repr a = Nat.repr b) : a = b := by
  have h1 : decVal (Nat.repr a).data = decVal (Nat.repr b).data := by rw [h]
  rwa [decVal_repr, decVal_repr] at h1

theorem decVal_replicate_zero (k : Nat) (l : List Char) :
    decVal (List.replicate k '0' ++ l) = decVal l := by
  induction k with
  | zero => rfl
  | succ j ih =>
    rw [List.replicate_succ, List.cons_append, decVal, ih]
    have h0 : dval '0' = 0 := rfl
    rw [h0]
    ring

theorem decVal_zeroPad (w : Nat) (s : String) :
    decVal (zeroPad w s).data = decVal s.data := by
  unfold zeroPad
  exact decVal_replicate_zero (w - s.length) s.data

theorem toDigitsCore_digits_lt :
    ∀ (fuel n : Nat) (ds : List Char), (∀ c ∈ ds, dval c < 10) →
      ∀ c ∈ Nat.toDigitsCore 10 fuel n ds, dval c < 10 := by
  intro fuel
  induction fuel with
  | zero =>
    intro n ds hds
    exact hds
  | succ f ih =>
    intro n ds hds
    rw [Nat.toDigitsCore]
    by_cases hz : n / 10 = 0
    · rw [if_pos hz]
      intro c hc
      cases hc with
      | head => exact dval_digitChar_lt (n % 10) (Nat.mod_lt n (by omega))
      | tail _ hmem => exact hds c hmem
    · rw [if_neg hz]
      apply ih
      intro c hc
      cases hc with
      | head => exact dval_digitChar_lt (n % 10) (Nat.mod_lt n (by omega))
      | tail _ hmem => exact hds c hmem

theorem repr_digits_lt (n : Nat) : ∀ c ∈ (Nat.repr n).data, dval c < 10 := by
  have h : (Nat.repr n).data = Nat.toDigitsCore 10 (n + 1) n [] := rfl
  rw [h]
  exact toDigitsCore_digits_lt (n + 1) n []
    (fun c hc => absurd hc (List.not_mem_nil c))

theorem decVal_lt (l : List Char) (h : ∀ c ∈ l, dval c < 10) :
    decVal l < 10 ^ l.length := by
  induction l with
  | nil => exact Nat.zero_lt_one
  | cons c cs ih =>
    rw [decVal, List.length_cons]
    have h1 : dval c < 10 := h c (List.mem_cons_self c cs)
    have h2 : decVal cs < 10 ^ cs.length :=
      ih (fun x hx => h x (List.mem_cons_of_mem c hx))
    have h3 : dval c * 10 ^ cs.length ≤ 9 * 10 ^ cs.length :=
      Nat.mul_le_mul_right _ (by omega)
    have step1 : dval c * 10 ^ cs.length + decVal cs
        < dval c * 10 ^ cs.length + 10 ^ cs.length := Nat.add_lt_add_left h2 _
    have step2 : dval c * 10 ^ cs.length + 10 ^ cs.length
        ≤ 9 * 10 ^ cs.length + 10 ^ cs.length := Nat.add_le_add_right h3 _
    have step3 : 9 * 10 ^ cs.length + 10 ^ cs.length = 10 ^ (cs.length + 1) := by
      rw [pow_succ]
      ring
    exact lt_of_lt_of_le step1 (le_of_le_of_eq step2 step3)

theorem repr_length_pos (n : Nat) : 1 ≤ (Nat.repr n).length := by
  by_contra h
  have hz : (Nat.repr n).data = [] := by
    have : (Nat.repr n).data.length = 0 := by
      have he : (Nat.repr n).length = (Nat.repr n).data.length := rfl
      omega
    exact List.length_eq_zero.mp this
  have hn : n = 0 := by
    have := decVal_repr n
    rw [hz] at this
    exact this.symm
  subst hn
  have : (Nat.repr 0).data = ['0'] := rfl
  rw [this] at hz
  exact List.noConfusion hz

theorem repr_length_of_lt_ten (n : Nat) (h : n < 10) : (Nat.repr n).length = 1 := by
  have hle : (Nat.repr n).length ≤ 1 := Nat.repr_length n 1 (by omega) (by simpa)
  have hge := repr_length_pos n
  omega

theorem repr_length_of_ge_ten (n : Nat) (h : 10 ≤ n) : 2 ≤ (Nat.repr n).length := by
  by_contra hlt
  have hle : (Nat.repr n).length ≤ 1 := by omega
  have hlen : (Nat.repr n).data.length ≤ 1 := hle
  have hv := decVal_lt (Nat.repr n).data (repr_digits_lt n)
  rw [decVal_repr] at hv
  have hp : (10 : Nat) ^ (Nat.repr n).data.length ≤ 10 ^ 1 :=
    Nat.pow_le_pow_right (by omega) hlen
  rw [pow_one] at hp
  omega

theorem zeroPad_repr_eq_claimPad (n : Nat) :
    zeroPad 2 (Nat.repr n) = claimPad n := by
  unfold claimPad
  by_cases h : n < 10
  · rw [if_pos h]
    have hl : (Nat.repr n).length = 1 := repr_length_of_lt_ten n h
    unfold zeroPad
    rw [hl]
    rfl
  · rw [if_neg h]
    have hl : 2 ≤ (Nat.repr n).length := repr_length_of_ge_ten n (by omega)
    unfold zeroPad
    have h2 : 2 - (Nat.repr n).length = 0 := by omega
    rw [h2]
    rfl

theorem zeroPad_repr_length (m : Nat) (h : m < 100) :
    (zeroPad 2 (Nat.repr m)).data.length = 2 := by
  have hL : (Nat.repr m).length ≤ 2 := Nat.repr_length m 2 (by omega) (by simpa)
  have he : (Nat.repr m).length = (Nat.repr m).data.length := rfl
  unfold zeroPad
  rw [List.length_append, List.length_replicate]
  omega

theorem topicName_data (y m d : Nat) :
    (topicName y m d).data
      = "ztf_".data ++ ((Nat.repr y).data ++ ((zeroPad 2 (Nat.repr m)).data
          ++ ((zeroPad 2 (Nat.repr d)).data ++ "_programid1".data))) := by
  unfold topicName
  simp [String.data_append, List.append_assoc]

/-- C9: the topic name the notebook subscribes to is exactly ztf_ followed
by the year, the month zero-padded to two digits, the day zero-padded to two
digits, and _programid1 — at the concrete example, ztf_20200211_programid1 —
and for months and days below 100 the mapping from observing night to topic
is injective, so each night maps deterministically to its own topic. -/
theorem topic_name_format_injective
    (y m d y2 m2 d2 : Nat)
    (hm : m < 100) (hd : d < 100) (hm2 : m2 < 100) (hd2 : d2 < 100)
    (heq : topicName y m d = topicName y2 m2 d2) :
    topicName 2020 2 11 = "ztf_20200211_programid1"
    ∧ topicName y m d = claimTopicName y m d
    ∧ y = y2 ∧ m = m2 ∧ d = d2 := by
  refine ⟨by decide, ?_, ?_⟩
  · unfold claimTopicName topicName
    rw [zeroPad_repr_eq_claimPad m, zeroPad_repr_eq_claimPad d]
  · have hdata := congrArg String.data heq
    rw [topicName_data, topicName_data] at hdata
    have h1 := List.append_cancel_left hdata
    have hlen := congrArg List.length h1
    simp only [List.length_append] at hlen
    rw [zeroPad_repr_length m hm, zeroPad_repr_length d hd,
      zeroPad_repr_length m2 hm2, zeroPad_repr_length d2 hd2] at hlen
    have hAlen : (Nat.repr y).data.length = (Nat.repr y2).data.length := by omega
    obtain ⟨hA, h2⟩ := List.append_inj h1 hAlen
    have hPlen : (zeroPad 2 (Nat.repr m)).data.length
        = (zeroPad 2 (Nat.repr m2)).data.length := by
      rw [zeroPad_repr_length m hm, zeroPad_repr_length m2 hm2]
    obtain ⟨hP, h3⟩ := List.append_inj h2 hPlen
    have hQlen : (zeroPad 2 (Nat.repr d)).data.length
        = (zeroPad 2 (Nat.repr d2)).data.length := by
      rw [zeroPad_repr_length d hd, zeroPad_repr_length d2 hd2]
    obtain ⟨hQ, _⟩ := List.append_inj h3 hQlen
    refine ⟨?_, ?_, ?_⟩
    · have := congrArg decVal hA
      rwa [decVal_repr, decVal_repr] at this
    · have h5 := congrArg decVal hP
      rw [decVal_zeroPad 2 (Nat.repr m), decVal_zeroPad 2 (Nat.repr m2),
        decVal_repr, decVal_repr] at h5
      exact h5
    · have h6 := congrArg decVal hQ
      rw [decVal_zeroPad 2 (Nat.repr d), decVal_zeroPad 2 (Nat.repr d2),
        decVal_repr, decVal_repr] at h6
      exact h6

/-- C9 witness at the concrete input of the claim: year 2020, month 2,
day 11, compared against itself. -/
theorem topic_name_format_injective_witness :
    topicName 2020 2 11 = "ztf_20200211_programid1"
    ∧ topicName 2020 2 11 = claimTopicName 2020 2 11
    ∧ (2020 : Nat) = 2020 ∧ (2 : Nat) = 2 ∧ (11 : Nat) = 11 :=
  topic_name_format_injective 2020 2 11 2020 2 11 (by decide) (by decide)
    (by decide) (by decide) rfl

/-! ## Claim C10 -/

/-- When the first j poll calls return nothing and call j returns a
message, the cell decides on that message: raise on an error, print
otherwise. -/
theorem pollForData_first_some (c : DemoConsumer) :
    ∀ (j fuel i : Nat), j < fuel →
      (∀ k, k < j → c.poll pollTimeout (i + k) = none) →
      ∀ m, c.poll pollTimeout (i + j) = some m →
      pollForData c fuel i
        = match m.error with
          | some e => CellResult.raised e
          | none => CellResult.printed m := by
  intro j
  induction j with
  | zero =>
    intro fuel i hj hnone m hm
    cases fuel with
    | zero => omega
    | succ f =>
      rw [pollForData]
      rw [Nat.add_zero] at hm
      rw [hm]
  | succ jj ih =>
    intro fuel i hj hnone m hm
    cases fuel with
    | zero => omega
    | succ f =>
      rw [pollForData]
      have h0 : c.poll pollTimeout i = none := by
        have h5 := hnone 0 (by omega)
        rwa [Nat.add_zero] at h5
      rw [h0]
      exact ih f (i + 1) (by omega)
        (fun k hk => by
          have h5 := hnone (k + 1) (by omega)
          rwa [(show i + (k + 1) = i + 1 + k by omega)] at h5)
        m
        (by rwa [(show i + 1 + jj = i + (jj + 1) by omega)])

/-- While every poll within the fuel bound returns nothing, the cell is
still inside its while loop. -/
theorem pollForData_all_none (c : DemoConsumer) :
    ∀ (fuel i : Nat), (∀ k, k < fuel → c.poll pollTimeout (i + k) = none) →
      pollForData c fuel i = CellResult.stillPolling := by
  intro fuel
  induction fuel with
  | zero =>
    intro i _
    rfl
  | succ f ih =>
    intro i hall
    rw [pollForData]
    have h0 : c.poll pollTimeout i = none := by
      have h5 := hall 0 (by omega)
      rwa [Nat.add_zero] at h5
    rw [h0]
    exact ih (i + 1) (fun k hk => by
      have h5 := hall (k + 1) (by omega)
      rwa [(show i + (k + 1) = i + 1 + k by omega)] at h5)

/-- C10: the poll-for-data cell returns to the caller only once a non-None
message has been received — while every poll within a bound returns nothing
it is still inside the while loop — every poll call passes the 1.0 second
timeout, and on the first returned message it raises KafkaException exactly
when the message carries an error and prints the message otherwise, so an
error-free message is printed, never raised. -/
theorem poll_cell_first_message
    (c : DemoConsumer) (fuel fuel2 j : Nat) (m : KafkaMessage)
    (hj : j < fuel)
    (hnone : (List.range j).all (fun i => (c.poll pollTimeout i).isNone) = true)
    (hm : c.poll pollTimeout j = some m)
    (hall : (List.range fuel2).all (fun i => (c.poll pollTimeout i).isNone) = true) :
    pollForData c fuel 0
      = (match m.error with
         | some e => CellResult.raised e
         | none => CellResult.printed m)
    ∧ pollForData c fuel2 0 = CellResult.stillPolling
    ∧ pollTimeout = 1 := by
  simp only [List.all_eq_true, List.mem_range] at hnone hall
  refine ⟨?_, ?_, rfl⟩
  · apply pollForData_first_some c j fuel 0 hj
    · intro k hk
      rw [Nat.zero_add]
      exact Option.isNone_iff_eq_none.mp (hnone k hk)
    · rwa [Nat.zero_add]
  · apply pollForData_all_none c fuel2 0
    intro k hk
    rw [Nat.zero_add]
    exact Option.isNone_iff_eq_none.mp (hall k hk)

/-- C10 witness at a concrete input: two empty polls, then a message
carrying an error. -/
theorem poll_cell_first_message_witness :
    pollForData ⟨fun _ i => if i < 2 then none
        else some ⟨some "err", "t", 0, 5, none⟩⟩ 5 0
      = (match (⟨some "err", "t", 0, 5, none⟩ : KafkaMessage).error with
         | some e => CellResult.raised e
         | none => CellResult.printed ⟨some "err", "t", 0, 5, none⟩)
    ∧ pollForData ⟨fun _ i => if i < 2 then none
        else some ⟨some "err", "t", 0, 5, none⟩⟩ 2 0 = CellResult.stillPolling
    ∧ pollTimeout = 1 :=
  poll_cell_first_message
    ⟨fun _ i => if i < 2 then none else some ⟨some "err", "t", 0, 5, none⟩⟩
    5 2 2 ⟨some "err", "t", 0, 5, none⟩ (by decide) (by decide) (by decide)
    (by decide)
